import Mathlib

/-!
Verification development for the `web_to_doc.py` crawler/converter.

The Python source is shallowly embedded: URLs are modelled as their parsed
components (netloc, path, fragment), the mutable converter object becomes an
explicit `Conv` state record, Python dicts become association lists with
overwrite semantics, and the `while` crawl loop becomes a fuel-indexed
recursive function (the fuel only bounds unrolling; a run is complete when the
loop guard has become false).
-/

/-- A URL, modelled by the components `urlparse` extracts from the URL string.
The scheme is not modelled (the code never inspects it); two URL strings are
identified exactly when their components agree. -/
structure Url where
  netloc : String
  path : String
  fragment : String
deriving DecidableEq, Repr

/-- Python truthiness of an optional string option: `None` and the empty
string are falsy. -/
def truthy : Option String → Bool
  | none => false
  | some s => s ≠ ""

/-- Python `needle in hay` substring test. -/
def containsSub (needle hay : String) : Bool :=
  decide (needle.toList <:+: hay.toList)

/-- Python `s.lower()`.  (Charwise; the core `String.toLower` is not
kernel-reducible, which concrete witness evaluations need.) -/
def lowerS (s : String) : String :=
  (s.toList.map Char.toLower).asString

/-- Python `s.startswith(pre)`. -/
def startsWithS (s pre : String) : Bool :=
  pre.toList.isPrefixOf s.toList

/-- Python `s.endswith(suf)`. -/
def endsWithS (s suf : String) : Bool :=
  suf.toList.reverse.isPrefixOf s.toList.reverse

/-- Python `s.strip()`: whitespace removed from both ends. -/
def trimS (s : String) : String :=
  ((s.toList.dropWhile Char.isWhitespace).reverse.dropWhile
    Char.isWhitespace).reverse.asString

/-- Splitting a character list at every occurrence of a separator character;
`acc` holds the current piece reversed. -/
def splitOnCharGo (sep : Char) : List Char → List Char → List String
  | [], acc => [acc.reverse.asString]
  | ch :: rest, acc =>
    if ch = sep then acc.reverse.asString :: splitOnCharGo sep rest []
    else splitOnCharGo sep rest (ch :: acc)

/-- Python `s.split(sep)` for a one-character separator (every separator in
the source -- the comma of the keyword and category lists, the slash of the
URL-segment fallback -- is a single character). -/
def splitOnCharS (sep : Char) (s : String) : List String :=
  splitOnCharGo sep s.toList []

/-- Lookup in an association list modelling a Python dict (`d.get(k)`). -/
def dictGet {β : Type} (l : List (Url × β)) (k : Url) : Option β :=
  (l.find? (fun p => decide (p.1 = k))).map Prod.snd

/-- Assignment `d[k] = v` on a Python dict: overwrite in place if the key is
present, else append (dicts preserve insertion order). -/
def dictSet {β : Type} (k : Url) (v : β) (l : List (Url × β)) : List (Url × β) :=
  if l.any (fun p => decide (p.1 = k)) then
    l.map (fun p => if p.1 = k then (k, v) else p)
  else l ++ [(k, v)]

/-- `urlparse(base_url).path.rsplit('/', 1)[0] + '/'` (source line 86): the
seed path with its final segment stripped, plus a trailing separator. -/
def basePathOf (p : String) : String :=
  if p.toList.contains '/' then
    ((p.toList.reverse.dropWhile (fun c => c ≠ '/')).reverse).asString
  else p ++ "/"

/-- The non-document extensions rejected by `is_valid_url` (source line 157). -/
def nonDocExts : List String :=
  [".pdf", ".png", ".jpg", ".jpeg", ".gif", ".svg", ".zip", ".exe",
   ".json", ".xml", ".js", ".css"]

/-- Configuration snapshot (`self.options`, source lines 95-108 after the
`options.update` merge).  Fields not consulted by any verified claim
(`delay`, `timeout`, `sitemap_url`, `interactive`) are omitted. -/
structure ConvOptions where
  max_pages : Nat
  max_depth : Option Nat
  format : String
  use_sitemap : Bool
  contains : Option String
  not_contains : Option String
  categories : Option String
  create_toc : Bool
deriving DecidableEq, Repr

/-- The default option values from `__init__` (source lines 95-108). -/
def defaultOptions : ConvOptions :=
  { max_pages := 250, max_depth := none, format := "pdf", use_sitemap := false,
    contains := none, not_contains := none, categories := none, create_toc := false }

/-- One `<a href=...>` anchor of a parsed page, carrying the absolute URL that
`urljoin(current_url, href)` resolves to.  `inChrome` records whether the
anchor sits inside a region matched by one of the boilerplate-strip selectors
`.navbar, .footer, .sidebar, nav, .cookie-banner, .announcement, .header`
(source line 342), so that `element.decompose()` removes it. -/
structure Anchor where
  href : Url
  inChrome : Bool
deriving DecidableEq, Repr

/-- A PDF-path content block found by `main_content.find_all` (source
line 384).  Images carry whether their download/decode succeeds. -/
inductive Block where
  | heading (text : String)
  | par (text : String)
  | codeBlock (text : String)
  | inlineCode (text : String)
  | image (ok : Bool)
deriving DecidableEq, Repr

/-- The main-content subtree the selection on source lines 347-349 yields
(first of `main`, `article`, `.content`, else `soup.body`) evaluated on the
chrome-stripped document, together with its serialization, flattened text and
PDF-path blocks.  The markup parser is an external collaborator, so the
selection outcome is a field rather than a computation. -/
structure MainContent where
  html : String
  text : String
  blocks : List Block
deriving DecidableEq, Repr

/-- A parsed page (`BeautifulSoup(html, 'html.parser')`).  `text` is
`soup.get_text()` of the full, unstripped document (used by the content
filter, source line 228); the four category fields are the `.text` of the
first element matched by each of the selectors in `get_category` (source
lines 249-254), `none` when no element matches. -/
structure Soup where
  anchors : List Anchor
  text : String
  title : Option String
  breadcrumbs : Option String
  navActive : Option String
  sidebarActive : Option String
  headerCategory : Option String
  mainContent : Option MainContent
deriving DecidableEq, Repr

/-- The boilerplate removal of source lines 341-344: decomposing the chrome
regions removes every anchor that sits inside one of them.  The
`mainContent` field already denotes the post-strip selection outcome, so it
is unchanged here. -/
def stripChrome (s : Soup) : Soup :=
  { s with anchors := s.anchors.filter (fun a => !a.inChrome) }

/-- The per-page entry stored in `self.contents[url]` (source lines 356-361). -/
structure ContentRec where
  title : String
  html : String
  text : String
  url : Url
deriving DecidableEq, Repr

/-- A reportlab flowable appended to `self.pdf_elements`. -/
inductive PdfElem where
  | titleLine (text : String)
  | sourceLine (u : Url)
  | heading (text : String)
  | par (text : String)
  | code (text : String)
  | image
  | spacerElem
  | pageBreak
deriving DecidableEq, Repr

/-- The mutable converter state (`WebToPdfConverter.__init__`, source lines
82-118).  `fetched` is a ghost log, not present in the source: it records, in
order, every URL for which `download_page` is invoked, i.e. every network
access of the crawl loop; it is needed to state the claims about network
access.  IO-only fields (`temp_dir`, `image_counter`, `sitemap_urls`) are
omitted. -/
structure Conv where
  base_url : Url
  output_path : String
  domain : String
  base_path : String
  visited_urls : List Url
  to_visit : List Url
  contents : List (Url × ContentRec)
  url_depth : List (Url × Nat)
  pdf_elements : List PdfElem
  fetched : List Url
  options : ConvOptions
deriving DecidableEq, Repr

/-- The initial converter state built by `__init__` from the seed URL. -/
def initConv (seed : Url) (out : String) (opts : ConvOptions) : Conv :=
  { base_url := seed, output_path := out,
    domain := seed.netloc, base_path := basePathOf seed.path,
    visited_urls := [], to_visit := [seed], contents := [],
    url_depth := [(seed, 0)], pdf_elements := [], fetched := [],
    options := opts }

/-- `url.split('#')[0]`: the fragment-stripped URL used as the `url_depth`
key (source lines 153-154). -/
def stripFragment (u : Url) : Url :=
  { u with fragment := "" }

/-- `is_valid_url` (source lines 139-169).  Returns the boolean decision and
the updated `self.url_depth` (the method writes the candidate depth as a side
effect on acceptance when a parent and a maximum depth are present). -/
def is_valid_url (c : Conv) (url : Url) (fromUrl : Option Url) :
    Bool × List (Url × Nat) :=
  if url.netloc ≠ "" ∧ url.netloc ≠ c.domain then (false, c.url_depth)
  else if ¬ startsWithS url.path c.base_path then (false, c.url_depth)
  -- lines 153-154 strip the fragment from a local variable only, feeding
  -- the url_depth key below; the validity decision is unaffected.
  else if nonDocExts.any (fun e => endsWithS url.path e) then (false, c.url_depth)
  else
    match c.options.max_depth, fromUrl with
    | some md, some parent =>
      if md ≤ (dictGet c.url_depth parent).getD 0 then (false, c.url_depth)
      else (true,
        dictSet (stripFragment url) ((dictGet c.url_depth parent).getD 0 + 1)
          c.url_depth)
    | _, _ => (true, c.url_depth)

/-- `extract_links` (source lines 171-181): walk the anchors in document
order, calling `is_valid_url(absolute_url, current_url)` on each (the call
happens before the visited-set test, so its depth side effect is threaded
even for already-visited targets), and collect those that are valid and not
yet visited. -/
def extractLinksGo (c : Conv) (cur : Url) :
    List Anchor → List (Url × Nat) → List Url → List Url × List (Url × Nat)
  | [], depth, acc => (acc, depth)
  | a :: rest, depth, acc =>
    let r := is_valid_url { c with url_depth := depth } a.href (some cur)
    if r.1 ∧ a.href ∉ c.visited_urls then
      extractLinksGo c cur rest r.2 (acc ++ [a.href])
    else
      extractLinksGo c cur rest r.2 acc

/-- `extract_links(soup, current_url)` returning the link list and the
updated depth map. -/
def extract_links (c : Conv) (s : Soup) (cur : Url) :
    List Url × List (Url × Nat) :=
  extractLinksGo c cur s.anchors c.url_depth []

/-- `[k.lower().strip() for k in s.split(',')]` (source lines 232 and 239). -/
def splitKeywords (s : String) : List String :=
  (splitOnCharS ',' s).map (fun k => trimS (lowerS k))

/-- `check_content_filters` (source lines 221-244), evaluated on
`soup.get_text()` of the full document. -/
def check_content_filters (opts : ConvOptions) (soupText : String) : Bool :=
  if !truthy opts.contains && !truthy opts.not_contains then true
  else
    let page_text := lowerS soupText
    if truthy opts.contains &&
        !((splitKeywords (opts.contains.getD "")).any
          (fun k => containsSub k page_text)) then false
    else if truthy opts.not_contains &&
        ((splitKeywords (opts.not_contains.getD "")).any
          (fun k => containsSub k page_text)) then false
    else true

/-- `get_category` (source lines 246-261): the ordered selector list
`.breadcrumbs`, `.nav-item.active`, `.sidebar .active`, `header .category`;
the first selector with a matching element yields that element's stripped
text. -/
def get_category (s : Soup) : Option String :=
  match s.breadcrumbs with
  | some t => some (trimS t)
  | none =>
    match s.navActive with
    | some t => some (trimS t)
    | none =>
      match s.sidebarActive with
      | some t => some (trimS t)
      | none =>
        match s.headerCategory with
        | some t => some (trimS t)
        | none => none

/-- `[c.strip() for c in categories.split(',')]` (source line 336). -/
def splitCategories (s : String) : List String :=
  (splitOnCharS ',' s).map trimS

/-- The category gate of `process_page` (source lines 332-339): only active
when the option is truthy; a falsy label (no selector matched, or matched
text stripped to empty) lets the page pass. -/
def category_ok (opts : ConvOptions) (s : Soup) : Bool :=
  if truthy opts.categories then
    match get_category s with
    | some pc =>
      if pc ≠ "" then
        (splitCategories (opts.categories.getD "")).any
          (fun cat => containsSub (lowerS cat) (lowerS pc))
      else true
    | none => true
  else true

/-- `url.split('/')[-1]`, the title fallback (source lines 357 and 364).
Computed from the path component: for an absolute URL string the final
`/`-separated segment lies in the path. -/
def lastSegment (u : Url) : String :=
  (splitOnCharS '/' u.path).getLastD ""

/-- The record written to `self.contents[url]` (source lines 356-361):
title from `soup.title` with URL-segment fallback, markup and text of the
main-content subtree. -/
def pageRecordOf (u : Url) (s : Soup) (mc : MainContent) : ContentRec :=
  { title := s.title.getD (lastSegment u), html := mc.html, text := mc.text,
    url := u }

/-- One iteration of the block loop (source lines 384-424): headings,
paragraphs and code blocks are emitted when their stripped text is non-empty;
an image whose download/decode succeeded contributes an image plus a spacer,
a failing one is skipped. -/
def blockToElems : Block → List PdfElem
  | .heading t => if trimS t ≠ "" then [.heading (trimS t)] else []
  | .par t => if trimS t ≠ "" then [.par (trimS t)] else []
  | .codeBlock t => if trimS t ≠ "" then [.code (trimS t)] else []
  | .inlineCode t => if trimS t ≠ "" then [.code (trimS t)] else []
  | .image ok => if ok then [.image, .spacerElem] else []

/-- The enqueue loop of source lines 381-383: append each extracted link that
is in neither the visited set nor the (growing) frontier. -/
def enqueue_new (visited : List Url) (frontier links : List Url) : List Url :=
  links.foldl (fun acc l => if l ∉ visited ∧ l ∉ acc then acc ++ [l] else acc)
    frontier

/-- Source line 356: storing the contents entry (`self.contents[url] = {...}`).
This happens as soon as the main content is located, before link extraction
and before the block loop. -/
def storeRecord (c : Conv) (url : Url) (soup : Soup) (mc : MainContent) : Conv :=
  { c with contents := dictSet url (pageRecordOf url soup mc) c.contents }

/-- Source lines 378-383: when not in sitemap mode, extract links from the
(already chrome-stripped) soup and append the new ones to the frontier;
`extract_links` also updates the depth map. -/
def enqueueLinks (c : Conv) (url : Url) (soup : Soup) : Conv :=
  if !c.options.use_sitemap then
    match extract_links c (stripChrome soup) url with
    | (links, depth) =>
      { c with to_visit := enqueue_new c.visited_urls c.to_visit links,
               url_depth := depth }
  else c

/-- The element list built for one page on the happy path: title line and
source line (lines 365-368), the block-extracted elements (lines 384-424),
and the terminating page break (line 427). -/
def pageElems (url : Url) (soup : Soup) (mc : MainContent) : List PdfElem :=
  [.titleLine (pageRecordOf url soup mc).title, .sourceLine url] ++
    mc.blocks.flatMap blockToElems ++ [.pageBreak]

/-- `process_page` (source lines 319-433).  `soupOpt` is the parse of
`download_page(url)` (`none` for a fetch failure or non-HTML content);
`raisesLate` models an exception thrown by an external library inside the
block-extraction loop (lines 384-424), the part of the `try` body that runs
after the contents entry is stored and the links are enqueued: the `except`
on line 431 then returns the empty element list, with all state mutations
made so far kept.  Chrome regions are decomposed (lines 341-344) before
main-content selection and before link extraction, mirroring the source
order. -/
def process_page (c : Conv) (url : Url) (soupOpt : Option Soup)
    (raisesLate : Bool) : Conv × List PdfElem :=
  match soupOpt with
  | none => (c, [])
  | some soup =>
    if !check_content_filters c.options soup.text then (c, [])
    else if !category_ok c.options soup then (c, [])
    else
      match (stripChrome soup).mainContent with
      | none => (c, [])
      | some mc =>
        if raisesLate then (enqueueLinks (storeRecord c url soup mc) url soup, [])
        else (enqueueLinks (storeRecord c url soup mc) url soup,
              pageElems url soup mc)

/-- The crawl loop of `run` (source lines 683-697), unrolled on a fuel
argument: `runLoop fuel c` is the state after at most `fuel` iterations of
the `while`; a run is complete once the guard is false, i.e. once the result
satisfies `Finished`.  Each non-duplicate dequeue appends the URL to the
ghost `fetched` log (the `download_page` call at the top of `process_page`)
and adds it to `visited_urls` before any filtering happens. -/
def runLoop (web : Url → Option Soup) (raisesLate : Url → Bool) :
    Nat → Conv → Conv
  | 0, c => c
  | fuel + 1, c =>
    match c.to_visit with
    | [] => c
    | current :: rest =>
      if c.visited_urls.length < c.options.max_pages then
        let c1 := { c with to_visit := rest }
        if current ∈ c1.visited_urls then runLoop web raisesLate fuel c1
        else
          let c2 := { c1 with visited_urls := current :: c1.visited_urls,
                              fetched := c1.fetched ++ [current] }
          let pr := process_page c2 current (web current) (raisesLate current)
          let c3 := { pr.1 with pdf_elements := pr.1.pdf_elements ++ pr.2 }
          runLoop web raisesLate fuel c3
      else c

/-- The crawl loop guard of source line 683 is false: the frontier is empty
or the page budget is exhausted.  A state with this property is a terminal
state of the `while` loop. -/
def Finished (c : Conv) : Prop :=
  c.to_visit = [] ∨ c.options.max_pages ≤ c.visited_urls.length

instance (c : Conv) : Decidable (Finished c) := by
  unfold Finished; infer_instance

/-- `create_pdf` (source lines 492-521): fails when no elements were
collected; the reportlab build is an external collaborator assumed to
succeed. -/
def create_pdf (c : Conv) : Bool :=
  if c.pdf_elements = [] then false else true

/-- `create_html` (source lines 523-560); the file write is external and
assumed to succeed. -/
def create_html (_c : Conv) : Bool := true

/-- `create_json` (source lines 562-585); the file write is external and
assumed to succeed. -/
def create_json (_c : Conv) : Bool := true

/-- `create_markdown` (source lines 587-627); the file write is external and
assumed to succeed. -/
def create_markdown (_c : Conv) : Bool := true

/-- `create_docx` (source lines 629-665); python-docx is assumed importable
and the save assumed to succeed. -/
def create_docx (_c : Conv) : Bool := true

/-- `run` (source lines 667-712).  The sitemap and interactive seeding steps
(lines 672-680) perform external IO and are not modelled; the structure that
matters here is preserved exactly: the crawl loop (lines 683-697) executes
first, and the output-format dispatch (lines 700-712) happens only
afterwards, returning `False` for an unsupported format. -/
def run (web : Url → Option Soup) (raisesLate : Url → Bool) (fuel : Nat)
    (c : Conv) : Conv × Bool :=
  let cf := runLoop web raisesLate fuel c
  let fmt := lowerS cf.options.format
  if fmt = "pdf" then (cf, create_pdf cf)
  else if fmt = "html" then (cf, create_html cf)
  else if fmt = "json" then (cf, create_json cf)
  else if fmt = "md" ∨ fmt = "markdown" then (cf, create_markdown cf)
  else if fmt = "docx" then (cf, create_docx cf)
  else (cf, false)

/-- A page object of the JSON output (source lines 570-575). -/
structure JsonPage where
  url : Url
  title : String
  text : String
deriving DecidableEq, Repr

/-- The JSON output object (source lines 565-575): `base_url` plus one page
object per `contents` entry, in insertion order. -/
structure JsonOut where
  base_url : Url
  pages : List JsonPage
deriving DecidableEq, Repr

/-- The structure `create_json` serializes (source lines 562-578). -/
def create_json_output (c : Conv) : JsonOut :=
  { base_url := c.base_url,
    pages := c.contents.map (fun p => ⟨p.1, p.2.title, p.2.text⟩) }

/-- The sequence of per-page sections `create_html` writes (source lines
546-551): one div per `contents` entry with the title and the stored main
content markup. -/
def create_html_sections (c : Conv) : List (Url × String × String) :=
  c.contents.map (fun p => (p.1, p.2.title, p.2.html))

/-- The sequence of per-page chunks `create_docx` writes (source lines
648-654): heading, source line and the stored text per `contents` entry. -/
def create_docx_sections (c : Conv) : List (Url × String × String) :=
  c.contents.map (fun p => (p.1, p.2.title, p.2.text))

/-- Display form of a URL (scheme omitted, see `Url`). -/
def urlString (u : Url) : String :=
  u.netloc ++ u.path ++ (if u.fragment = "" then "" else "#" ++ u.fragment)

/-- The anchor expression of source lines 599 and 606:
`title.lower().replace(' ', '-').replace(':', '').replace('.', '')`.
All three replace patterns are single characters, so the chain acts
characterwise: spaces become hyphens, colons and periods are dropped.  (The
core `String.replace` is not kernel-reducible, hence the characterwise
form.)  The source computes this expression twice, once for the
table-of-contents line and once for the section heading. -/
def mdAnchor (title : String) : String :=
  ((((lowerS title).toList.map (fun ch => if ch = ' ' then '-' else ch)).filter
      (fun ch => ch ≠ ':')).filter (fun ch => ch ≠ '.')).asString

/-- The table-of-contents line of `create_markdown` (source lines 598-600). -/
def md_toc_line (title : String) : String :=
  "- [" ++ title ++ "](#" ++ mdAnchor title ++ ")\n"

/-- The section heading of `create_markdown` (source lines 605-607), which
recomputes the anchor with the same expression. -/
def md_section_header (title : String) : String :=
  "## " ++ title ++ " <a id=\"" ++ mdAnchor title ++ "\"></a>\n\n"

/-- The paragraph body of one markdown section (source lines 612-618). -/
def md_paragraphs (t : String) : String :=
  String.join ((((t.splitOn "\n\n").map trimS).filter
    (fun p => p ≠ "")).map (fun p => p ++ "\n\n"))

/-- One full markdown section (source lines 604-620). -/
def md_section (u : Url) (r : ContentRec) : String :=
  md_section_header r.title ++
    "Source: [" ++ urlString u ++ "](" ++ urlString u ++ ")\n\n" ++
    md_paragraphs r.text ++ "---\n\n"

/-- The list of markdown sections, one per `contents` entry in order. -/
def create_markdown_sections (c : Conv) : List String :=
  c.contents.map (fun p => md_section p.1 p.2)

/-- The full markdown document `create_markdown` writes (source lines
587-621). -/
def create_markdown_output (c : Conv) : String :=
  "# Documentation: " ++ urlString c.base_url ++ "\n\n" ++
    (if c.options.create_toc ∧ c.contents ≠ [] then
      "## Table of Contents\n\n" ++
        String.join (c.contents.map (fun p => md_toc_line p.2.title)) ++
        "\n---\n\n"
     else "") ++
    String.join (create_markdown_sections c)

/-! ### Helper lemmas about the dict model -/

theorem dictGet_dictSet_self {β : Type} (k : Url) (v : β) (l : List (Url × β)) :
    dictGet (dictSet k v l) k = some v := by
  unfold dictGet dictSet
  by_cases h : l.any (fun p => decide (p.1 = k))
  · rw [if_pos h]
    induction l with
    | nil => simp at h
    | cons p t ih =>
      by_cases hp : p.1 = k
      · simp [List.find?_cons, hp]
      · simp only [List.any_cons, Bool.or_eq_true, decide_eq_true_eq] at h
        rcases h with h | h
        · exact absurd h hp
        · simpa [List.find?_cons, hp] using ih (by simpa using h)
  · rw [if_neg h]
    rw [Bool.not_eq_true] at h
    induction l with
    | nil => simp [List.find?_cons]
    | cons p t ih =>
      simp only [List.any_cons, Bool.or_eq_false_iff, decide_eq_false_iff_not] at h
      simpa [List.find?_cons, h.1] using ih (by simp [h.2])

theorem mem_dictSet_self {β : Type} (k : Url) (v : β) (l : List (Url × β)) :
    (k, v) ∈ dictSet k v l := by
  unfold dictSet
  by_cases h : l.any (fun p => decide (p.1 = k))
  · rw [if_pos h]
    simp only [List.any_eq_true, decide_eq_true_eq] at h
    obtain ⟨p, hp, he⟩ := h
    exact List.mem_map.mpr ⟨p, hp, by simp [he]⟩
  · rw [if_neg h]
    simp

theorem dictSet_keys_fresh {β : Type} (k : Url) (v : β) (l : List (Url × β))
    (h : k ∉ l.map Prod.fst) :
    (dictSet k v l).map Prod.fst = l.map Prod.fst ++ [k] := by
  unfold dictSet
  have hany : l.any (fun p => decide (p.1 = k)) = false := by
    rw [List.any_eq_false]
    intro p hp
    simp only [decide_eq_true_eq]
    exact fun he => h (List.mem_map.mpr ⟨p, hp, he⟩)
  rw [if_neg (by simp [hany])]
  simp

/-! ### C6: scope filter rejections -/

/-- C6: a URL whose (non-empty) host differs from the seed host, or whose
path is not nested under the seed path prefix (seed path with the final
segment stripped plus trailing separator), is rejected by the scope filter;
and a URL whose path ends in one of the non-document extensions is rejected
regardless of host or path match.  The hypotheses tie the converter fields to
their `__init__` derivation from the seed URL. -/
theorem scope_filter_rejections (c : Conv) (seed : Url)
    (hd : c.domain = seed.netloc) (hb : c.base_path = basePathOf seed.path)
    (url : Url) (fromUrl : Option Url) :
    (((url.netloc ≠ "" ∧ url.netloc ≠ seed.netloc) ∨
        ¬ startsWithS url.path (basePathOf seed.path)) →
      (is_valid_url c url fromUrl).1 = false)
    ∧ (nonDocExts.any (fun e => endsWithS url.path e) = true →
      (is_valid_url c url fromUrl).1 = false) := by
  rw [← hd, ← hb]
  constructor
  · rintro (⟨hne, hdiff⟩ | hpath)
    · unfold is_valid_url
      rw [if_pos ⟨hne, hdiff⟩]
    · unfold is_valid_url
      by_cases hh : url.netloc ≠ "" ∧ url.netloc ≠ c.domain
      · rw [if_pos hh]
      · rw [if_neg hh, if_pos hpath]
  · intro hext
    unfold is_valid_url
    by_cases h1 : url.netloc ≠ "" ∧ url.netloc ≠ c.domain
    · rw [if_pos h1]
    · rw [if_neg h1]
      by_cases h2 : ¬ startsWithS url.path c.base_path = true
      · rw [if_pos h2]
      · rw [if_neg h2, if_pos hext]

/-- Concrete seed and converter used by several witnesses. -/
def seedW : Url := ⟨"docs.example.com", "/guide/index.html", ""⟩

def convW : Conv := initConv seedW "output.pdf" defaultOptions

def urlOtherHostW : Url := ⟨"other.com", "/guide/page", ""⟩

/-- Witness for `scope_filter_rejections`: the `__init__` hypotheses hold for
the concrete converter and the theorem applies to a URL on a foreign host. -/
theorem scope_filter_rejections_w :
    convW.domain = seedW.netloc ∧ convW.base_path = basePathOf seedW.path ∧
    ((((urlOtherHostW.netloc ≠ "" ∧ urlOtherHostW.netloc ≠ seedW.netloc) ∨
        ¬ startsWithS urlOtherHostW.path (basePathOf seedW.path)) →
      (is_valid_url convW urlOtherHostW none).1 = false)
    ∧ (nonDocExts.any (fun e => endsWithS urlOtherHostW.path e) = true →
      (is_valid_url convW urlOtherHostW none).1 = false)) :=
  ⟨rfl, rfl, scope_filter_rejections convW seedW rfl rfl urlOtherHostW none⟩

/-! ### C4: depth policy -/

/-- C4: with a maximum depth configured, a candidate validated against a
parent whose recorded depth (default 0) is already at the maximum is
rejected; and whenever such a validation accepts, the updated depth map
records parent-depth + 1 under the fragment-stripped candidate URL. -/
theorem depth_policy (c : Conv) (md : Nat)
    (hmd : c.options.max_depth = some md) (url parent : Url) :
    (md ≤ (dictGet c.url_depth parent).getD 0 →
      (is_valid_url c url (some parent)).1 = false)
    ∧ ((is_valid_url c url (some parent)).1 = true →
      dictGet (is_valid_url c url (some parent)).2 (stripFragment url) =
        some ((dictGet c.url_depth parent).getD 0 + 1)) := by
  unfold is_valid_url
  rw [hmd]
  by_cases h1 : url.netloc ≠ "" ∧ url.netloc ≠ c.domain
  · rw [if_pos h1]
    exact ⟨fun _ => rfl, fun hc => absurd hc (by simp)⟩
  · rw [if_neg h1]
    by_cases h2 : ¬ startsWithS url.path c.base_path = true
    · rw [if_pos h2]
      exact ⟨fun _ => rfl, fun hc => absurd hc (by simp)⟩
    · rw [if_neg h2]
      by_cases h3 : nonDocExts.any (fun e => endsWithS url.path e) = true
      · rw [if_pos h3]
        exact ⟨fun _ => rfl, fun hc => absurd hc (by simp)⟩
      · rw [if_neg h3]
        dsimp only
        by_cases h4 : md ≤ (dictGet c.url_depth parent).getD 0
        · rw [if_pos h4]
          exact ⟨fun _ => rfl, fun hc => absurd hc (by simp)⟩
        · rw [if_neg h4]
          refine ⟨fun hle => absurd hle h4, fun _ => ?_⟩
          exact dictGet_dictSet_self _ _ _

/-- Converter with a configured maximum depth for the depth-policy witness:
the seed is recorded at depth 0, so a child accepted from it lands at
depth 1. -/
def convDepthW : Conv :=
  initConv seedW "output.pdf" { defaultOptions with max_depth := some 2 }

def childW : Url := ⟨"docs.example.com", "/guide/child", "sec"⟩

/-- Witness for `depth_policy` at a concrete converter, child and parent. -/
theorem depth_policy_w :
    convDepthW.options.max_depth = some 2 ∧
    ((2 ≤ (dictGet convDepthW.url_depth seedW).getD 0 →
      (is_valid_url convDepthW childW (some seedW)).1 = false)
    ∧ ((is_valid_url convDepthW childW (some seedW)).1 = true →
      dictGet (is_valid_url convDepthW childW (some seedW)).2
          (stripFragment childW) =
        some ((dictGet convDepthW.url_depth seedW).getD 0 + 1))) :=
  ⟨rfl, depth_policy convDepthW 2 rfl childW seedW⟩

/-! ### C8: markdown anchor derivation -/

/-- C8: for the title `"Getting Started: V2."` the markdown renderer derives
the anchor `getting-started-v2` (lowercased, spaces to hyphens, colons and
periods removed) and emits that same anchor both in the table-of-contents
line (source line 599) and in the section heading (line 606), which
recompute it with the identical expression. -/
theorem markdown_anchor_derivation :
    md_toc_line "Getting Started: V2." =
      "- [Getting Started: V2.](#getting-started-v2)\n"
    ∧ md_section_header "Getting Started: V2." =
      "## Getting Started: V2. <a id=\"getting-started-v2\"></a>\n\n" := by
  constructor <;> decide

/-! ### C7: content filter semantics -/

/-- C7: the content filter accepts a page exactly when (no include list is
configured, or some include keyword occurs case-insensitively in the page
text) and (no exclude list is configured, or no exclude keyword occurs).
In particular an exclude hit rejects even when an include keyword matches,
and with neither filter configured every page is accepted. -/
theorem content_filter_iff (opts : ConvOptions) (pageText : String) :
    check_content_filters opts pageText = true ↔
      ((truthy opts.contains = false ∨
        ∃ k ∈ splitKeywords (opts.contains.getD ""),
          containsSub k (lowerS pageText) = true)
      ∧ (truthy opts.not_contains = false ∨
        ∀ k ∈ splitKeywords (opts.not_contains.getD ""),
          containsSub k (lowerS pageText) = false)) := by
  by_cases hc : truthy opts.contains = true <;>
    by_cases hn : truthy opts.not_contains = true <;>
    by_cases ha : (splitKeywords (opts.contains.getD "")).any
      (fun k => containsSub k (lowerS pageText)) = true <;>
    by_cases hb : (splitKeywords (opts.not_contains.getD "")).any
      (fun k => containsSub k (lowerS pageText)) = true <;>
    simp_all [check_content_filters, List.any_eq_true, List.any_eq_false]

/-! ### C9: category filter semantics -/

/-- C9: with a category include-list configured, the category label is the
first match in the fixed ordered list of structural locations (breadcrumbs,
active nav item, active sidebar item, header category marker); when a
non-empty label is found the page passes exactly when some configured
category matches it case-insensitively as a substring; when no location
yields a label the page passes. -/
theorem category_filter_spec (opts : ConvOptions) (s : Soup)
    (hcat : truthy opts.categories = true) :
    (get_category s =
      (((s.breadcrumbs.orElse fun _ => s.navActive).orElse
          fun _ => s.sidebarActive).orElse fun _ => s.headerCategory).map trimS)
    ∧ (∀ lbl, get_category s = some lbl → lbl ≠ "" →
        (category_ok opts s = true ↔
          ∃ cat ∈ splitCategories (opts.categories.getD ""),
            containsSub (lowerS cat) (lowerS lbl) = true))
    ∧ (get_category s = none → category_ok opts s = true) := by
  refine ⟨?_, ?_, ?_⟩
  · unfold get_category
    cases s.breadcrumbs <;> cases s.navActive <;> cases s.sidebarActive <;>
      cases s.headerCategory <;> simp [Option.orElse]
  · intro lbl hl hne
    simp [category_ok, hcat, hl, hne, List.any_eq_true]
  · intro h
    simp [category_ok, hcat, h]

/-- Witness for `category_filter_spec` at a concrete option set and page. -/
def optsCatW : ConvOptions := { defaultOptions with categories := some "API, Guides" }

def soupCatW : Soup :=
  { anchors := [], text := "t", title := some "T",
    breadcrumbs := some " Guides  ", navActive := none, sidebarActive := none,
    headerCategory := none, mainContent := none }

theorem category_filter_spec_w :
    truthy optsCatW.categories = true ∧
    (category_ok optsCatW soupCatW = true ↔
      ∃ cat ∈ splitCategories (optsCatW.categories.getD ""),
        containsSub (lowerS cat) (lowerS "Guides") = true) :=
  ⟨by decide,
   (category_filter_spec optsCatW soupCatW (by decide)).2.1 "Guides"
     (by decide) (by decide)⟩

/-! ### Structural lemmas about `process_page` and the crawl loop -/

theorem storeRecord_visited (c : Conv) (u : Url) (soup : Soup)
    (mc : MainContent) : (storeRecord c u soup mc).visited_urls = c.visited_urls :=
  rfl

theorem storeRecord_to_visit (c : Conv) (u : Url) (soup : Soup)
    (mc : MainContent) : (storeRecord c u soup mc).to_visit = c.to_visit :=
  rfl

theorem storeRecord_options (c : Conv) (u : Url) (soup : Soup)
    (mc : MainContent) : (storeRecord c u soup mc).options = c.options :=
  rfl

theorem storeRecord_contents (c : Conv) (u : Url) (soup : Soup)
    (mc : MainContent) :
    (storeRecord c u soup mc).contents =
      dictSet u (pageRecordOf u soup mc) c.contents :=
  rfl

theorem enqueueLinks_visited (c : Conv) (u : Url) (s : Soup) :
    (enqueueLinks c u s).visited_urls = c.visited_urls := by
  unfold enqueueLinks
  split_ifs <;> rfl

theorem enqueueLinks_options (c : Conv) (u : Url) (s : Soup) :
    (enqueueLinks c u s).options = c.options := by
  unfold enqueueLinks
  split_ifs <;> rfl

theorem enqueueLinks_contents (c : Conv) (u : Url) (s : Soup) :
    (enqueueLinks c u s).contents = c.contents := by
  unfold enqueueLinks
  split_ifs <;> rfl

theorem enqueueLinks_fetched (c : Conv) (u : Url) (s : Soup) :
    (enqueueLinks c u s).fetched = c.fetched := by
  unfold enqueueLinks
  split_ifs <;> rfl

theorem enqueueLinks_to_visit (c : Conv) (u : Url) (s : Soup) :
    ∃ links, (enqueueLinks c u s).to_visit =
      enqueue_new c.visited_urls c.to_visit links ∧
      (∀ l ∈ links, ∃ a ∈ (stripChrome s).anchors, a.href = l) := by
  unfold enqueueLinks
  split_ifs with h
  · refine ⟨(extract_links c (stripChrome s) u).1, rfl, ?_⟩
    intro l hl
    -- membership in the extract_links result comes from the anchor list
    have : ∀ (ans : List Anchor) (d : List (Url × Nat)) (acc : List Url),
        l ∈ (extractLinksGo c u ans d acc).1 →
        l ∈ acc ∨ ∃ a ∈ ans, a.href = l := by
      intro ans
      induction ans with
      | nil => intro d acc hm; exact Or.inl hm
      | cons a rest ih =>
        intro d acc hm
        unfold extractLinksGo at hm
        by_cases hc : (is_valid_url { c with
            url_depth := d } a.href (some u)).1 ∧ a.href ∉ c.visited_urls
        · rw [if_pos hc] at hm
          rcases ih _ _ hm with hacc | ⟨a', ha', he⟩
          · rcases List.mem_append.mp hacc with h1 | h1
            · exact Or.inl h1
            · exact Or.inr ⟨a, List.mem_cons_self a rest,
                (List.mem_singleton.mp h1).symm⟩
          · exact Or.inr ⟨a', List.mem_cons_of_mem a ha', he⟩
        · rw [if_neg hc] at hm
          rcases ih _ _ hm with hacc | ⟨a', ha', he⟩
          · exact Or.inl hacc
          · exact Or.inr ⟨a', List.mem_cons_of_mem a ha', he⟩
    rcases this (stripChrome s).anchors c.url_depth [] hl with hm | hm
    · exact absurd hm (List.not_mem_nil l)
    · exact hm
  · exact ⟨[], rfl, by intro l hl; exact absurd hl (List.not_mem_nil l)⟩

/-- `process_page` either leaves the state unchanged or stores the record and
enqueues the extracted links. -/
theorem process_page_fst (c : Conv) (u : Url) (so : Option Soup) (r : Bool) :
    (process_page c u so r).1 = c ∨
    ∃ soup mc, so = some soup ∧ (stripChrome soup).mainContent = some mc ∧
      (process_page c u so r).1 =
        enqueueLinks (storeRecord c u soup mc) u soup := by
  unfold process_page
  cases so with
  | none => exact Or.inl rfl
  | some soup =>
    dsimp only
    split_ifs with h1 h2 hr
    · exact Or.inl rfl
    · exact Or.inl rfl
    · rcases hmc : (stripChrome soup).mainContent with _ | mc
      · exact Or.inl rfl
      · exact Or.inr ⟨soup, mc, rfl, hmc, rfl⟩
    · rcases hmc : (stripChrome soup).mainContent with _ | mc
      · exact Or.inl rfl
      · exact Or.inr ⟨soup, mc, rfl, hmc, rfl⟩

theorem process_page_visited (c : Conv) (u : Url) (so : Option Soup)
    (r : Bool) : (process_page c u so r).1.visited_urls = c.visited_urls := by
  rcases process_page_fst c u so r with h | ⟨soup, mc, _, _, h⟩
  · rw [h]
  · rw [h, enqueueLinks_visited, storeRecord_visited]

theorem process_page_options (c : Conv) (u : Url) (so : Option Soup)
    (r : Bool) : (process_page c u so r).1.options = c.options := by
  rcases process_page_fst c u so r with h | ⟨soup, mc, _, _, h⟩
  · rw [h]
  · rw [h, enqueueLinks_options, storeRecord_options]

theorem process_page_to_visit (c : Conv) (u : Url) (so : Option Soup)
    (r : Bool) :
    ∃ links, (process_page c u so r).1.to_visit =
        enqueue_new c.visited_urls c.to_visit links ∧
      ∀ l ∈ links, ∃ soup, so = some soup ∧
        ∃ a ∈ (stripChrome soup).anchors, a.href = l := by
  rcases process_page_fst c u so r with h | ⟨soup, mc, hso, hmc, h⟩
  · exact ⟨[], by rw [h]; rfl,
      fun l hl => absurd hl (List.not_mem_nil l)⟩
  · obtain ⟨links, hto, hanch⟩ :=
      enqueueLinks_to_visit (storeRecord c u soup mc) u soup
    refine ⟨links, ?_, fun l hl => ⟨soup, hso, hanch l hl⟩⟩
    rw [h, hto, storeRecord_visited, storeRecord_to_visit]

theorem process_page_contents (c : Conv) (u : Url) (so : Option Soup)
    (r : Bool) :
    (process_page c u so r).1.contents = c.contents ∨
    ∃ soup mc, so = some soup ∧
      (process_page c u so r).1.contents =
        dictSet u (pageRecordOf u soup mc) c.contents := by
  rcases process_page_fst c u so r with h | ⟨soup, mc, hso, _, h⟩
  · exact Or.inl (by rw [h])
  · refine Or.inr ⟨soup, mc, hso, ?_⟩
    rw [h, enqueueLinks_contents, storeRecord_contents]

theorem enqueue_new_cons (vis f : List Url) (x : Url) (xs : List Url) :
    enqueue_new vis f (x :: xs) =
      enqueue_new vis (if x ∉ vis ∧ x ∉ f then f ++ [x] else f) xs :=
  rfl

/-- Soundness of the enqueue loop: it preserves a duplicate-free frontier
disjoint from the visited set, and only adds elements of the link list. -/
theorem enqueue_new_sound (vis : List Url) :
    ∀ (links f : List Url), f.Nodup → (∀ x ∈ f, x ∉ vis) →
      (enqueue_new vis f links).Nodup ∧
      (∀ x ∈ enqueue_new vis f links, x ∉ vis) ∧
      (∀ x ∈ enqueue_new vis f links, x ∈ f ∨ x ∈ links) := by
  intro links
  induction links with
  | nil => exact fun f hnd hdis => ⟨hnd, hdis, fun x hx => Or.inl hx⟩
  | cons l ls ih =>
    intro f hnd hdis
    rw [enqueue_new_cons]
    by_cases hc : l ∉ vis ∧ l ∉ f
    · rw [if_pos hc]
      have hnd' : (f ++ [l]).Nodup := by
        rw [List.nodup_append]
        exact ⟨hnd, List.nodup_singleton l,
          fun a haf hal => hc.2 ((List.mem_singleton.mp hal) ▸ haf)⟩
      have hdis' : ∀ x ∈ f ++ [l], x ∉ vis := by
        intro x hx
        rcases List.mem_append.mp hx with h | h
        · exact hdis x h
        · rw [List.mem_singleton.mp h]; exact hc.1
      obtain ⟨a1, a2, a3⟩ := ih (f ++ [l]) hnd' hdis'
      refine ⟨a1, a2, fun x hx => ?_⟩
      rcases a3 x hx with hxf | hxl
      · rcases List.mem_append.mp hxf with h | h
        · exact Or.inl h
        · exact Or.inr (by rw [List.mem_singleton.mp h]; exact List.mem_cons_self l ls)
      · exact Or.inr (List.mem_cons_of_mem l hxl)
    · rw [if_neg hc]
      obtain ⟨a1, a2, a3⟩ := ih f hnd hdis
      exact ⟨a1, a2, fun x hx => (a3 x hx).imp id (List.mem_cons_of_mem l)⟩

/-- The crawl-state invariant maintained by the main loop: no duplicate
visits, a duplicate-free frontier disjoint from the visited set, contents
keyed by distinct visited URLs, and the visited count within the page
budget. -/
def CrawlInv (c : Conv) : Prop :=
  c.visited_urls.Nodup ∧ c.to_visit.Nodup ∧
  (∀ u ∈ c.to_visit, u ∉ c.visited_urls) ∧
  (c.contents.map Prod.fst).Nodup ∧
  (∀ k ∈ c.contents.map Prod.fst, k ∈ c.visited_urls) ∧
  c.visited_urls.length ≤ c.options.max_pages

/-- `process_page` preserves the invariant components relative to its input
state (in the crawl loop the current URL is already in `visited_urls` and not
yet a contents key when this runs). -/
theorem process_page_inv (c : Conv) (u : Url) (so : Option Soup) (r : Bool)
    (h2 : c.to_visit.Nodup)
    (h3 : ∀ x ∈ c.to_visit, x ∉ c.visited_urls)
    (h4 : (c.contents.map Prod.fst).Nodup)
    (h5 : ∀ k ∈ c.contents.map Prod.fst, k ∈ c.visited_urls)
    (hu : u ∈ c.visited_urls)
    (h6 : u ∉ c.contents.map Prod.fst) :
    (process_page c u so r).1.to_visit.Nodup ∧
    (∀ x ∈ (process_page c u so r).1.to_visit, x ∉ c.visited_urls) ∧
    ((process_page c u so r).1.contents.map Prod.fst).Nodup ∧
    (∀ k ∈ (process_page c u so r).1.contents.map Prod.fst,
      k ∈ c.visited_urls) := by
  obtain ⟨links, hto, _⟩ := process_page_to_visit c u so r
  obtain ⟨e1, e2, _⟩ := enqueue_new_sound c.visited_urls links c.to_visit h2 h3
  refine ⟨by rw [hto]; exact e1, by rw [hto]; exact e2, ?_, ?_⟩
  · rcases process_page_contents c u so r with h | ⟨soup, mc, _, h⟩
    · rw [h]; exact h4
    · rw [h, dictSet_keys_fresh u _ _ h6]
      rw [List.nodup_append]
      exact ⟨h4, List.nodup_singleton u,
        fun a ha hb => h6 ((List.mem_singleton.mp hb) ▸ ha)⟩
  · rcases process_page_contents c u so r with h | ⟨soup, mc, _, h⟩
    · rw [h]; exact h5
    · rw [h, dictSet_keys_fresh u _ _ h6]
      intro k hk
      rcases List.mem_append.mp hk with h | h
      · exact h5 k h
      · rw [List.mem_singleton.mp h]; exact hu

/-- The state transformation of one visit iteration of the crawl loop
(source lines 684-697): pop the head, mark it visited, log the fetch, run
`process_page`, and extend `pdf_elements` with the produced elements. -/
def stepState (web : Url → Option Soup) (raisesLate : Url → Bool) (c : Conv)
    (current : Url) (rest : List Url) : Conv :=
  let c2 := { c with to_visit := rest,
                     visited_urls := current :: c.visited_urls,
                     fetched := c.fetched ++ [current] }
  let pr := process_page c2 current (web current) (raisesLate current)
  { pr.1 with pdf_elements := pr.1.pdf_elements ++ pr.2 }

/-- One visit step of the crawl loop: the head of the frontier is new and the
budget allows it, so it is marked visited, logged as fetched, and processed. -/
theorem runLoop_succ_visit (web : Url → Option Soup) (raisesLate : Url → Bool)
    (k : Nat) (c : Conv) (current : Url) (rest : List Url)
    (hq : c.to_visit = current :: rest)
    (hb : c.visited_urls.length < c.options.max_pages)
    (hv : current ∉ c.visited_urls) :
    runLoop web raisesLate (k + 1) c =
      runLoop web raisesLate k
        (stepState web raisesLate c current rest) := by
  rw [runLoop, hq]
  dsimp only
  rw [if_pos hb, if_neg hv]
  rfl

/-- One skip step: the head of the frontier is already visited. -/
theorem runLoop_succ_skip (web : Url → Option Soup) (raisesLate : Url → Bool)
    (k : Nat) (c : Conv) (current : Url) (rest : List Url)
    (hq : c.to_visit = current :: rest)
    (hb : c.visited_urls.length < c.options.max_pages)
    (hv : current ∈ c.visited_urls) :
    runLoop web raisesLate (k + 1) c =
      runLoop web raisesLate k { c with to_visit := rest } := by
  rw [runLoop, hq]
  dsimp only
  rw [if_pos hb, if_pos hv]

/-- The loop guard fails on an empty frontier. -/
theorem runLoop_succ_nil (web : Url → Option Soup) (raisesLate : Url → Bool)
    (k : Nat) (c : Conv) (hq : c.to_visit = []) :
    runLoop web raisesLate (k + 1) c = c := by
  rw [runLoop, hq]

/-- The loop guard fails on an exhausted page budget. -/
theorem runLoop_succ_budget (web : Url → Option Soup) (raisesLate : Url → Bool)
    (k : Nat) (c : Conv) (current : Url) (rest : List Url)
    (hq : c.to_visit = current :: rest)
    (hb : ¬ c.visited_urls.length < c.options.max_pages) :
    runLoop web raisesLate (k + 1) c = c := by
  rw [runLoop, hq]
  dsimp only
  rw [if_neg hb]

theorem storeRecord_fetched (c : Conv) (u : Url) (soup : Soup)
    (mc : MainContent) : (storeRecord c u soup mc).fetched = c.fetched :=
  rfl

theorem process_page_fetched (c : Conv) (u : Url) (so : Option Soup)
    (r : Bool) : (process_page c u so r).1.fetched = c.fetched := by
  rcases process_page_fst c u so r with h | ⟨soup, mc, _, _, h⟩
  · rw [h]
  · rw [h, enqueueLinks_fetched, storeRecord_fetched]

theorem stepState_visited (web : Url → Option Soup) (raisesLate : Url → Bool)
    (c : Conv) (current : Url) (rest : List Url) :
    (stepState web raisesLate c current rest).visited_urls =
      current :: c.visited_urls := by
  unfold stepState
  exact process_page_visited _ _ _ _

theorem stepState_options (web : Url → Option Soup) (raisesLate : Url → Bool)
    (c : Conv) (current : Url) (rest : List Url) :
    (stepState web raisesLate c current rest).options = c.options := by
  unfold stepState
  exact process_page_options _ _ _ _

theorem stepState_fetched (web : Url → Option Soup) (raisesLate : Url → Bool)
    (c : Conv) (current : Url) (rest : List Url) :
    (stepState web raisesLate c current rest).fetched =
      c.fetched ++ [current] := by
  unfold stepState
  exact process_page_fetched _ _ _ _

theorem stepState_to_visit (web : Url → Option Soup) (raisesLate : Url → Bool)
    (c : Conv) (current : Url) (rest : List Url) :
    ∃ links, (stepState web raisesLate c current rest).to_visit =
        enqueue_new (current :: c.visited_urls) rest links ∧
      ∀ l ∈ links, ∃ soup, web current = some soup ∧
        ∃ a ∈ (stripChrome soup).anchors, a.href = l := by
  unfold stepState
  exact process_page_to_visit _ _ _ _

theorem stepState_contents (web : Url → Option Soup) (raisesLate : Url → Bool)
    (c : Conv) (current : Url) (rest : List Url) :
    (stepState web raisesLate c current rest).contents = c.contents ∨
    ∃ soup mc, web current = some soup ∧
      (stepState web raisesLate c current rest).contents =
        dictSet current (pageRecordOf current soup mc) c.contents := by
  unfold stepState
  exact process_page_contents _ _ _ _

/-- A visit step establishes the invariant at the successor state. -/
theorem stepState_inv (web : Url → Option Soup) (raisesLate : Url → Bool)
    (c : Conv) (current : Url) (rest : List Url)
    (hv : current ∉ c.visited_urls)
    (hb : c.visited_urls.length < c.options.max_pages)
    (h1 : c.visited_urls.Nodup) (h2 : (current :: rest).Nodup)
    (h3 : ∀ u ∈ current :: rest, u ∉ c.visited_urls)
    (h4 : (c.contents.map Prod.fst).Nodup)
    (h5 : ∀ x ∈ c.contents.map Prod.fst, x ∈ c.visited_urls) :
    CrawlInv (stepState web raisesLate c current rest) := by
  have hcur_rest : current ∉ rest := (List.nodup_cons.mp h2).1
  have hrest : rest.Nodup := (List.nodup_cons.mp h2).2
  have hdis : ∀ x ∈ rest, x ∉ current :: c.visited_urls := by
    intro x hx
    rw [List.mem_cons, not_or]
    exact ⟨fun he => hcur_rest (he ▸ hx),
      h3 x (List.mem_cons_of_mem current hx)⟩
  have hkeys : current ∉ c.contents.map Prod.fst :=
    fun hx => hv (h5 current hx)
  obtain ⟨links, hto, _⟩ := stepState_to_visit web raisesLate c current rest
  obtain ⟨e1, e2, _⟩ :=
    enqueue_new_sound (current :: c.visited_urls) links rest hrest hdis
  refine ⟨?_, ?_, ?_, ?_, ?_, ?_⟩
  · rw [stepState_visited]
    exact List.nodup_cons.mpr ⟨hv, h1⟩
  · rw [hto]
    exact e1
  · intro u hu
    rw [stepState_visited]
    rw [hto] at hu
    exact e2 u hu
  · rcases stepState_contents web raisesLate c current rest with h | ⟨s, mc, _, h⟩
    · rw [h]; exact h4
    · rw [h, dictSet_keys_fresh current _ _ hkeys, List.nodup_append]
      exact ⟨h4, List.nodup_singleton current,
        fun a ha hb2 => hkeys ((List.mem_singleton.mp hb2) ▸ ha)⟩
  · intro x hx
    rw [stepState_visited]
    rcases stepState_contents web raisesLate c current rest with h | ⟨s, mc, _, h⟩
    · rw [h] at hx
      exact List.mem_cons_of_mem current (h5 x hx)
    · rw [h, dictSet_keys_fresh current _ _ hkeys] at hx
      rcases List.mem_append.mp hx with h' | h'
      · exact List.mem_cons_of_mem current (h5 x h')
      · rw [List.mem_singleton.mp h']
        exact List.mem_cons_self current c.visited_urls
  · rw [stepState_visited, stepState_options]
    exact Nat.succ_le_of_lt hb

/-- The crawl loop preserves the crawl-state invariant. -/
theorem runLoop_inv (web : Url → Option Soup) (raisesLate : Url → Bool) :
    ∀ (k : Nat) (c : Conv), CrawlInv c → CrawlInv (runLoop web raisesLate k c) := by
  intro k
  induction k with
  | zero => exact fun c h => h
  | succ k ih =>
    intro c hc
    obtain ⟨h1, h2, h3, h4, h5, h6⟩ := hc
    rcases hq : c.to_visit with _ | ⟨current, rest⟩
    · rw [runLoop_succ_nil web raisesLate k c hq]
      exact ⟨h1, h2, h3, h4, h5, h6⟩
    · rw [hq] at h2 h3
      by_cases hb : c.visited_urls.length < c.options.max_pages
      · by_cases hv : current ∈ c.visited_urls
        · rw [runLoop_succ_skip web raisesLate k c current rest hq hb hv]
          exact ih _ ⟨h1, (List.nodup_cons.mp h2).2,
            fun x hx => h3 x (List.mem_cons_of_mem current hx), h4, h5, h6⟩
        · rw [runLoop_succ_visit web raisesLate k c current rest hq hb hv]
          exact ih _ (stepState_inv web raisesLate c current rest hv hb
            h1 h2 h3 h4 h5)
      · rw [runLoop_succ_budget web raisesLate k c current rest hq hb]
        exact ⟨h1, by rw [hq]; exact h2, by rw [hq]; exact h3, h4, h5, h6⟩

/-- The crawl loop never removes a URL from the visited set. -/
theorem runLoop_visited_mono (web : Url → Option Soup)
    (raisesLate : Url → Bool) :
    ∀ (k : Nat) (c : Conv) (u : Url), u ∈ c.visited_urls →
      u ∈ (runLoop web raisesLate k c).visited_urls := by
  intro k
  induction k with
  | zero => exact fun c u h => h
  | succ k ih =>
    intro c u hu
    rcases hq : c.to_visit with _ | ⟨current, rest⟩
    · rw [runLoop_succ_nil web raisesLate k c hq]
      exact hu
    · by_cases hb : c.visited_urls.length < c.options.max_pages
      · by_cases hv : current ∈ c.visited_urls
        · rw [runLoop_succ_skip web raisesLate k c current rest hq hb hv]
          exact ih _ u hu
        · rw [runLoop_succ_visit web raisesLate k c current rest hq hb hv]
          apply ih
          rw [stepState_visited]
          exact List.mem_cons_of_mem current hu
      · rw [runLoop_succ_budget web raisesLate k c current rest hq hb]
        exact hu

/-- The crawl loop never changes the options snapshot. -/
theorem runLoop_options (web : Url → Option Soup) (raisesLate : Url → Bool) :
    ∀ (k : Nat) (c : Conv),
      (runLoop web raisesLate k c).options = c.options := by
  intro k
  induction k with
  | zero => exact fun c => rfl
  | succ k ih =>
    intro c
    rcases hq : c.to_visit with _ | ⟨current, rest⟩
    · rw [runLoop_succ_nil web raisesLate k c hq]
    · by_cases hb : c.visited_urls.length < c.options.max_pages
      · by_cases hv : current ∈ c.visited_urls
        · rw [runLoop_succ_skip web raisesLate k c current rest hq hb hv]
          exact ih _
        · rw [runLoop_succ_visit web raisesLate k c current rest hq hb hv]
          rw [ih _, stepState_options]
      · rw [runLoop_succ_budget web raisesLate k c current rest hq hb]

/-- The invariant holds at the initial converter state. -/
theorem initConv_inv (seed : Url) (out : String) (opts : ConvOptions) :
    CrawlInv (initConv seed out opts) := by
  refine ⟨?_, ?_, ?_, ?_, ?_, ?_⟩ <;> simp [initConv, CrawlInv]

/-! ### C5: visited-set and frontier deduplication -/

/-- C5: at every point of a crawl run from the initial converter state (the
state after any number of loop iterations, over any web contents and any
library failure behavior), the visited set is duplicate-free — and since it
only ever grows, each URL enters it at most once — the frontier never
simultaneously contains two pending entries for the same URL, and no pending
entry is already in the visited set, so a visited URL is never re-enqueued. -/
theorem visited_frontier_dedup (web : Url → Option Soup)
    (raisesLate : Url → Bool) (k : Nat) (seed : Url) (out : String)
    (opts : ConvOptions) :
    (runLoop web raisesLate k (initConv seed out opts)).visited_urls.Nodup ∧
    (runLoop web raisesLate k (initConv seed out opts)).to_visit.Nodup ∧
    ∀ u ∈ (runLoop web raisesLate k (initConv seed out opts)).to_visit,
      u ∉ (runLoop web raisesLate k (initConv seed out opts)).visited_urls := by
  obtain ⟨h1, h2, h3, _, _, _⟩ :=
    runLoop_inv web raisesLate k (initConv seed out opts)
      (initConv_inv seed out opts)
  exact ⟨h1, h2, h3⟩

/-! ### C3: page-budget exactness -/

/-- C3: for a complete crawl run from the initial state (the fuel suffices,
i.e. the loop guard is false at the result), the number of pages
dequeued-and-attempted — the visited set — is exactly
min(maxPages, totalDiscoverable), where totalDiscoverable, the number of
distinct in-scope URLs the crawl ever discovered (entered the frontier),
equals the visited count plus the pending count at termination; the first
conjunct certifies that sum counts distinct URLs.  The number of page
records produced is at most the number of pages attempted, and a page whose
content filter rejects it still consumes one unit of budget: it is dequeued
into the visited set all the same (final conjunct). -/
theorem budget_exactness (web : Url → Option Soup) (raisesLate : Url → Bool)
    (fuel : Nat) (seed : Url) (out : String) (opts : ConvOptions)
    (hfin : Finished (runLoop web raisesLate fuel (initConv seed out opts))) :
    ((runLoop web raisesLate fuel (initConv seed out opts)).visited_urls ++
      (runLoop web raisesLate fuel (initConv seed out opts)).to_visit).Nodup ∧
    (runLoop web raisesLate fuel (initConv seed out opts)).visited_urls.length
      = min opts.max_pages
        ((runLoop web raisesLate fuel
            (initConv seed out opts)).visited_urls.length +
         (runLoop web raisesLate fuel
            (initConv seed out opts)).to_visit.length) ∧
    (runLoop web raisesLate fuel (initConv seed out opts)).contents.length ≤
      (runLoop web raisesLate fuel
        (initConv seed out opts)).visited_urls.length ∧
    (∀ (c : Conv) (u : Url) (rest : List Url) (k : Nat),
      c.to_visit = u :: rest → u ∉ c.visited_urls →
      c.visited_urls.length < c.options.max_pages →
      (∀ s, web u = some s → check_content_filters c.options s.text = false) →
      u ∈ (runLoop web raisesLate (k + 1) c).visited_urls) := by
  obtain ⟨h1, h2, h3, h4, h5, h6⟩ :=
    runLoop_inv web raisesLate fuel (initConv seed out opts)
      (initConv_inv seed out opts)
  have hopts : (runLoop web raisesLate fuel (initConv seed out opts)).options
      = opts := runLoop_options web raisesLate fuel (initConv seed out opts)
  rw [hopts] at h6
  refine ⟨?_, ?_, ?_, ?_⟩
  · rw [List.nodup_append]
    exact ⟨h1, h2, fun a ha hb => h3 a hb ha⟩
  · unfold Finished at hfin
    rw [hopts] at hfin
    rcases hfin with hq | hb
    · rw [hq]
      simp only [List.length_nil]
      omega
    · omega
  · calc (runLoop web raisesLate fuel (initConv seed out opts)).contents.length
        = ((runLoop web raisesLate fuel
            (initConv seed out opts)).contents.map Prod.fst).length := by
          rw [List.length_map]
      _ ≤ _ := List.Subperm.length_le (List.Nodup.subperm h4 h5)
  · intro c u rest k hq hv hb _
    rw [runLoop_succ_visit web raisesLate k c u rest hq hb hv]
    apply runLoop_visited_mono
    rw [stepState_visited]
    exact List.mem_cons_self u c.visited_urls

/-- Concrete two-page web for witnesses: the seed links to one further
in-scope page. -/
def seed3 : Url := ⟨"docs.example.com", "/guide/", ""⟩

def url3b : Url := ⟨"docs.example.com", "/guide/b", ""⟩

def mc3 : MainContent := ⟨"<p>a</p>", "a", []⟩

def soup3a : Soup :=
  { anchors := [⟨url3b, false⟩], text := "guide a", title := some "A",
    breadcrumbs := none, navActive := none, sidebarActive := none,
    headerCategory := none, mainContent := some mc3 }

def soup3b : Soup := { soup3a with anchors := [], title := some "B" }

def web3 : Url → Option Soup := fun u =>
  if u = seed3 then some soup3a
  else if u = url3b then some soup3b
  else none

def noRaise : Url → Bool := fun _ => false

def opts3 : ConvOptions := { defaultOptions with max_pages := 10 }

/-- Witness for `budget_exactness`: the concrete two-page crawl terminates
within 5 iterations and attempts exactly min(10, 2) = 2 pages. -/
theorem budget_exactness_w :
    Finished (runLoop web3 noRaise 5 (initConv seed3 "out.json" opts3)) ∧
    (runLoop web3 noRaise 5 (initConv seed3 "out.json" opts3)).visited_urls.length
      = min opts3.max_pages
        ((runLoop web3 noRaise 5 (initConv seed3 "out.json" opts3)).visited_urls.length +
         (runLoop web3 noRaise 5 (initConv seed3 "out.json" opts3)).to_visit.length) :=
  ⟨by decide,
   (budget_exactness web3 noRaise 5 seed3 "out.json" opts3 (by decide)).2.1⟩

/-! ### C1: unsupported output format -/

/-- The formats `run` dispatches on (source lines 700-709). -/
def supportedFormats : List String :=
  ["pdf", "html", "json", "md", "markdown", "docx"]

def optsPptx : ConvOptions :=
  { defaultOptions with format := "pptx", max_pages := 10 }

/-- C1 counterexample: configure the unsupported format "pptx" on the
concrete two-page web.  The run returns failure, but only after the crawl
loop has executed: both pages are fetched (network accesses) even though the
format was invalid from the start, refuting the claim that no page is
fetched on a run with an unsupported format. -/
theorem unsupported_format_fetches_cex :
    (run web3 noRaise 5 (initConv seed3 "out.pptx" optsPptx)).2 = false ∧
    (run web3 noRaise 5 (initConv seed3 "out.pptx" optsPptx)).1.fetched =
      [seed3, url3b] := by
  constructor <;> decide

/-- C1 amended: an unsupported output format selector does make the run
report failure, but the format check happens only after the crawl loop
(source lines 700-712 follow lines 683-697): the final state — including the
log of fetched pages — is exactly the crawl loop result, so crawling and
network access happen before the failure is reported. -/
theorem run_unsupported_format (web : Url → Option Soup)
    (raisesLate : Url → Bool) (fuel : Nat) (c : Conv)
    (h : lowerS c.options.format ∉ supportedFormats) :
    (run web raisesLate fuel c).2 = false ∧
    (run web raisesLate fuel c).1 = runLoop web raisesLate fuel c := by
  simp only [supportedFormats, List.mem_cons, List.not_mem_nil, or_false,
    not_or] at h
  obtain ⟨n1, n2, n3, n4, n5, n6⟩ := h
  unfold run
  dsimp only
  rw [runLoop_options web raisesLate fuel c]
  rw [if_neg n1, if_neg n2, if_neg n3,
    if_neg (fun hor => hor.elim n4 n5), if_neg n6]
  exact ⟨rfl, rfl⟩

/-- Witness for `run_unsupported_format` at the concrete "pptx" run. -/
theorem run_unsupported_format_w :
    lowerS (initConv seed3 "o.pptx" optsPptx).options.format ∉ supportedFormats ∧
    ((run web3 noRaise 5 (initConv seed3 "o.pptx" optsPptx)).2 = false ∧
     (run web3 noRaise 5 (initConv seed3 "o.pptx" optsPptx)).1 =
       runLoop web3 noRaise 5 (initConv seed3 "o.pptx" optsPptx)) :=
  ⟨by decide,
   run_unsupported_format web3 noRaise 5 (initConv seed3 "o.pptx" optsPptx)
     (by decide)⟩

/-! ### C2: link extraction versus chrome stripping -/

/-- Membership in the enqueue result comes from the old frontier or the link
list. -/
theorem enqueue_new_mem (vis : List Url) :
    ∀ (links f : List Url) (x : Url),
      x ∈ enqueue_new vis f links → x ∈ f ∨ x ∈ links := by
  intro links
  induction links with
  | nil => exact fun f x hx => Or.inl hx
  | cons l ls ih =>
    intro f x hx
    rw [enqueue_new_cons] at hx
    by_cases hc : l ∉ vis ∧ l ∉ f
    · rw [if_pos hc] at hx
      rcases ih _ x hx with h | h
      · rcases List.mem_append.mp h with h1 | h1
        · exact Or.inl h1
        · exact Or.inr
            (by rw [List.mem_singleton.mp h1]; exact List.mem_cons_self l ls)
      · exact Or.inr (List.mem_cons_of_mem l h)
    · rw [if_neg hc] at hx
      exact (ih _ x hx).imp id (List.mem_cons_of_mem l)

def chromeLink : Url := ⟨"docs.example.com", "/guide/nav-target", ""⟩

def convC2 : Conv :=
  { initConv seed3 "out.pdf" opts3 with visited_urls := [seed3], to_visit := [] }

def soupC2 : Soup :=
  { anchors := [⟨chromeLink, true⟩], text := "guide", title := some "A",
    breadcrumbs := none, navActive := none, sidebarActive := none,
    headerCategory := none, mainContent := some mc3 }

def soupC2outside : Soup := { soupC2 with anchors := [⟨chromeLink, false⟩] }

/-- C2 counterexample: a link that sits inside a chrome region (a stripped
selector region such as the navbar) and passes the scope filter, on a page
that passes every filter and has main content, is NOT offered to the
frontier — because the source decomposes chrome (lines 341-344) before
extracting links (lines 378-383) from the same mutated soup.  The identical
link outside chrome IS offered, isolating the stripping as the cause. -/
theorem chrome_link_not_offered_cex :
    (is_valid_url convC2 chromeLink (some seed3)).1 = true ∧
    chromeLink ∉ convC2.visited_urls ∧ chromeLink ∉ convC2.to_visit ∧
    chromeLink ∉ (process_page convC2 seed3 (some soupC2) false).1.to_visit ∧
    chromeLink ∈ (process_page convC2 seed3 (some soupC2outside) false).1.to_visit := by
  refine ⟨by decide, by decide, by decide, by decide, by decide⟩

/-- C2 amended: link extraction runs on the chrome-stripped document, after
boilerplate removal: every URL newly offered to the frontier by
`process_page` originates from an anchor outside the chrome regions, so a
link present only inside chrome is never offered. -/
theorem links_extracted_after_strip (c : Conv) (u : Url) (so : Option Soup)
    (r : Bool) (l : Url)
    (hl : l ∈ (process_page c u so r).1.to_visit) :
    l ∈ c.to_visit ∨
    ∃ soup, so = some soup ∧
      ∃ a ∈ soup.anchors, a.inChrome = false ∧ a.href = l := by
  obtain ⟨links, hto, hsrc⟩ := process_page_to_visit c u so r
  rw [hto] at hl
  rcases enqueue_new_mem c.visited_urls links c.to_visit l hl with h | h
  · exact Or.inl h
  · obtain ⟨soup, hso, a, ha, he⟩ := hsrc l h
    have ha' : a ∈ soup.anchors.filter (fun x => !x.inChrome) := ha
    obtain ⟨hmem, hchrome⟩ := List.mem_filter.mp ha'
    exact Or.inr ⟨soup, hso, a, hmem, by simpa using hchrome, he⟩

/-- Witness for `links_extracted_after_strip`: the concrete seed page offers
its non-chrome link, which indeed originates from a non-chrome anchor. -/
theorem links_extracted_after_strip_w :
    url3b ∈ (process_page convC2 seed3 (some soup3a) false).1.to_visit ∧
    (url3b ∈ convC2.to_visit ∨
     ∃ soup, (some soup3a : Option Soup) = some soup ∧
       ∃ a ∈ soup.anchors, a.inChrome = false ∧ a.href = url3b) :=
  ⟨by decide,
   links_extracted_after_strip convC2 seed3 (some soup3a) false url3b
     (by decide)⟩

/-! ### C10: non-atomic page processing on extraction error -/

/-- C10: page processing is not atomic on error.  When the filters pass and
the main content is located, the contents entry is stored (source line 356)
before the PDF block-extraction loop (lines 384-424) runs; if an exception
is raised during that later extraction, `process_page` returns the empty
element list (no PDF content for the page) while the stored entry is not
rolled back, and the page consequently still appears in the JSON page list
and in the per-page section sequences of the HTML, DOCX and markdown
renderers, all of which iterate `contents`. -/
theorem nonatomic_error_keeps_record (c : Conv) (u : Url) (soup : Soup)
    (mc : MainContent)
    (hf : check_content_filters c.options soup.text = true)
    (hcat : category_ok c.options soup = true)
    (hmc : (stripChrome soup).mainContent = some mc) :
    (process_page c u (some soup) true).2 = [] ∧
    dictGet (process_page c u (some soup) true).1.contents u =
      some (pageRecordOf u soup mc) ∧
    (⟨u, (pageRecordOf u soup mc).title, (pageRecordOf u soup mc).text⟩ :
        JsonPage) ∈
      (create_json_output (process_page c u (some soup) true).1).pages ∧
    (u, (pageRecordOf u soup mc).title, (pageRecordOf u soup mc).html) ∈
      create_html_sections (process_page c u (some soup) true).1 ∧
    (u, (pageRecordOf u soup mc).title, (pageRecordOf u soup mc).text) ∈
      create_docx_sections (process_page c u (some soup) true).1 ∧
    md_section u (pageRecordOf u soup mc) ∈
      create_markdown_sections (process_page c u (some soup) true).1 := by
  have hpp : process_page c u (some soup) true =
      (enqueueLinks (storeRecord c u soup mc) u soup, []) := by
    unfold process_page
    dsimp only
    rw [hf, hcat, hmc]
    rfl
  have hcont : (process_page c u (some soup) true).1.contents =
      dictSet u (pageRecordOf u soup mc) c.contents := by
    rw [hpp]
    exact (enqueueLinks_contents _ _ _).trans (storeRecord_contents _ _ _ _)
  have hmem : (u, pageRecordOf u soup mc) ∈
      (process_page c u (some soup) true).1.contents := by
    rw [hcont]
    exact mem_dictSet_self u (pageRecordOf u soup mc) c.contents
  refine ⟨by rw [hpp], ?_, ?_, ?_, ?_, ?_⟩
  · rw [hcont]
    exact dictGet_dictSet_self u (pageRecordOf u soup mc) c.contents
  · exact List.mem_map.mpr ⟨(u, pageRecordOf u soup mc), hmem, rfl⟩
  · exact List.mem_map.mpr ⟨(u, pageRecordOf u soup mc), hmem, rfl⟩
  · exact List.mem_map.mpr ⟨(u, pageRecordOf u soup mc), hmem, rfl⟩
  · exact List.mem_map.mpr ⟨(u, pageRecordOf u soup mc), hmem, rfl⟩

/-- Witness for `nonatomic_error_keeps_record` on a concrete page whose
extraction raises. -/
theorem nonatomic_error_keeps_record_w :
    (check_content_filters convC2.options soupC2.text = true ∧
     category_ok convC2.options soupC2 = true ∧
     (stripChrome soupC2).mainContent = some mc3) ∧
    (process_page convC2 seed3 (some soupC2) true).2 = [] ∧
    dictGet (process_page convC2 seed3 (some soupC2) true).1.contents seed3 =
      some (pageRecordOf seed3 soupC2 mc3) :=
  ⟨⟨by decide, by decide, by decide⟩,
   (nonatomic_error_keeps_record convC2 seed3 soupC2 mc3 (by decide)
     (by decide) (by decide)).1,
   (nonatomic_error_keeps_record convC2 seed3 soupC2 mc3 (by decide)
     (by decide) (by decide)).2.1⟩
